import Mathlib

/-!
# Verification of the claw_dashboard core runtime

Shallow embedding of the three core components of the repository:

* `EventBus` (src/unnamed/part_003) — topic-keyed publish/subscribe,
* `StateManager` (src/js/core/StateManager.js) — hierarchical reactive store
  with undo/redo history and persistence,
* `ModuleRegistry` (src/js/core/ModuleRegistry.js) — module lifecycle
  orchestrator with dependency-first initialization.

Modelling conventions:

* JS values stored in the state tree are modelled by the JSON-like type
  `Value` (the store's own `deepClone` is `JSON.parse(JSON.stringify(x))`,
  so trees are JSON values; `deepClone` is the identity on `Value`).
  The JS value `undefined` is represented by `Option.none` where it can
  occur (lookup results, old values), `null` by `Value.vnull`.
* JS `Map`s (subscribers, events, modules, configs, instances) are modelled
  by insertion-ordered association lists; `Map.set` replaces in place or
  appends, matching JS iteration order.
* JS `Set`s of callbacks are modelled by duplicate-free insertion-ordered
  lists of callback identifiers (`Nat`); a callback's behaviour is given by
  an environment mapping identifiers to behaviours.
* Object property lookup is own-key lookup; keys inherited from
  `Object.prototype` (`toString`, ...) are not modelled and no theorem
  input mentions them.  Exotic string/array properties (`length`, array
  index coercion of non-canonical numerals, extending an array past its
  length, named properties on arrays) are likewise outside the model; the
  corresponding branches of `setWalk` return an explicit error and no
  theorem depends on them.
* Exceptions are modelled by explicit error results; ES modules run in
  strict mode, so assigning a property on a primitive, or using `in` on a
  primitive or `null`, is a `TypeError`.
* Unbounded recursion (`ModuleRegistry.init` on a dependency cycle) is
  modelled with explicit fuel; `.timeout` for every fuel models divergence.
-/

set_option maxHeartbeats 1000000

/-- JSON-like values: what the state tree can hold (scalars, sequences,
mappings).  `deepClone` (JSON round-trip) is the identity on these. -/
inductive Value where
  | vnull
  | vbool (b : Bool)
  | vnum (n : Int)
  | vstr (s : String)
  | varr (elems : List Value)
  | vobj (fields : List (String × Value))
deriving Inhabited

/-- Splitting a character list on `'.'`, as JS `String.prototype.split('.')`
does: the empty string yields `[""]`, adjacent dots yield empty segments. -/
def splitDotChars : List Char → List (List Char)
  | [] => [[]]
  | c :: rest =>
    match splitDotChars rest with
    | [] => [[]]
    | h :: t => if c = '.' then [] :: h :: t else (c :: h) :: t

/-- JS `path.split('.')`. -/
def jsSplit (s : String) : List String :=
  (splitDotChars s.data).map List.asString

/-- JS `parts.join('.')`. -/
def joinDots : List String → String
  | [] => ""
  | [s] => s
  | s :: rest => s ++ "." ++ joinDots rest

/-- Lookup in an insertion-ordered association list (JS `Map.get` /
own-property read). -/
def alookup {α : Type} : List (String × α) → String → Option α
  | [], _ => none
  | (k, v) :: rest, key => if k = key then some v else alookup rest key

/-- Update of an insertion-ordered association list (JS `Map.set` /
property write): replace in place, or append a new key at the end. -/
def aset {α : Type} : List (String × α) → String → α → List (String × α)
  | [], key, v => [(key, v)]
  | (k, w) :: rest, key, v =>
    if k = key then (k, v) :: rest else (k, w) :: aset rest key v

/-- JS property read `value[key]` for a defined, non-null `value`:
own key of an object, or element of an array under a numeric key;
anything else yields `undefined` (`none`). -/
def lookupKey : Value → String → Option Value
  | .vobj fields, k => alookup fields k
  | .varr elems, k =>
    match k.toNat? with
    | some i => elems.get? i
    | none => none
  | _, _ => none

/-- The loop of `StateManager.get`: walk the key list; a `null` or
`undefined` intermediate (or final `undefined`) makes the call return the
caller's default, modelled as `none`.  A final `null` is returned as-is. -/
def jsGetLoop : Value → List String → Option Value
  | v, [] => some v
  | .vnull, _ :: _ => none
  | v, k :: rest =>
    match lookupKey v k with
    | none => none
    | some v' => jsGetLoop v' rest

/-- The mutation walk of `StateManager.set`: descend along `keys`, creating
`{}` for a missing key (`if (!(key in target)) target[key] = {}`), then
write `newVal` under `lastKey` and report the previous value there
(`undefined` as `none`).  Using `in` on a primitive or `null`, or assigning
a property on a primitive, throws a `TypeError` in strict mode; the walk
mutates nothing before such a throw (a created intermediate is always a
fresh empty object, whose further descent cannot throw). -/
def setWalk : Value → List String → String → Value → Except String (Value × Option Value)
  | .vobj fields, [], lastKey, newVal =>
    .ok (.vobj (aset fields lastKey newVal), alookup fields lastKey)
  | .varr elems, [], lastKey, newVal =>
    (match lastKey.toNat? with
     | some i =>
       if i < elems.length then .ok (.varr (elems.set i newVal), elems.get? i)
       else .error "array extension not modelled"
     | none => .error "array named property not modelled")
  | _, [], _, _ => .error "TypeError"
  | .vobj fields, k :: rest, lastKey, newVal =>
    (match alookup fields k with
     | some child =>
       match setWalk child rest lastKey newVal with
       | .ok (child', old) => .ok (.vobj (aset fields k child'), old)
       | .error e => .error e
     | none =>
       match setWalk (.vobj []) rest lastKey newVal with
       | .ok (child', old) => .ok (.vobj (aset fields k child'), old)
       | .error e => .error e)
  | .varr elems, k :: rest, lastKey, newVal =>
    (match k.toNat? with
     | some i =>
       match elems.get? i with
       | some child =>
         match setWalk child rest lastKey newVal with
         | .ok (child', old) => .ok (.varr (elems.set i child'), old)
         | .error e => .error e
       | none => .error "array extension not modelled"
     | none => .error "array named property not modelled")
  | _, _ :: _, _, _ => .error "TypeError"

/-- JS `keys.pop()`: split a non-empty list into its front and last
element. -/
def splitPop : List String → Option (List String × String)
  | [] => none
  | [x] => some ([], x)
  | x :: y :: rest =>
    match splitPop (y :: rest) with
    | some (front, last) => some (x :: front, last)
    | none => none

/-! ## StateManager (src/js/core/StateManager.js) -/

/-- The observable state of `StateManagerClass`.  Subscriber sets are
lists of callback identifiers; `historyIndex` is an `Int` because the JS
code uses `-1` as its empty-history sentinel. -/
structure SMState where
  state : Value
  subscribers : List (String × List Nat)
  history : List Value
  historyIndex : Int
  maxHistoryLength : Nat
  persistEnabled : Bool

/-- Observable effects of a store operation, in program order:
`localStorage.setItem` / `removeItem` calls, subscriber invocations
(arguments and whether the callback returned normally), and the mirrored
`EventBus.emit` at the end of `notifySubscribers`. -/
inductive SMEvent where
  | persistWrite
  | persistRemove
  | invoke (id : Nat) (arg1 : Option Value) (arg2 : Option Value) (changedPath : String) (ok : Bool)
  | mirror (topic : String)

/-- Run one subscriber callback: the behaviour environment `throws` says
whether it raises. -/
def runCb (throws : Nat → Bool) (id : Nat) : Except Unit Unit :=
  if throws id then .error () else .ok ()

/-- Model of `Set.forEach` over store subscribers with the per-callback
`try { callback(...) } catch { console.error(...) }` of
`notifySubscribers`: a throwing callback is logged (`ok = false`) and the
iteration continues. -/
def forEachInvoke (throws : Nat → Bool) (arg1 arg2 : Option Value) (changedPath : String) : List Nat → List SMEvent
  | [] => []
  | id :: rest =>
    match runCb throws id with
    | .error _ => .invoke id arg1 arg2 changedPath false :: forEachInvoke throws arg1 arg2 changedPath rest
    | .ok _ => .invoke id arg1 arg2 changedPath true :: forEachInvoke throws arg1 arg2 changedPath rest

/-- The callbacks registered at a path (empty when the path has no
entry). -/
def subsAt (st : SMState) (path : String) : List Nat :=
  (alookup st.subscribers path).getD []

/-- Model of `StateManager.get(path)` with no default: `none` models
`undefined`. -/
def getValue (st : SMState) (path : String) : Option Value :=
  jsGetLoop st.state (jsSplit path)

/-- Model of `StateManager.get(path, defaultValue)`. -/
def smGet (st : SMState) (path : String) (dflt : Option Value) : Option Value :=
  match getValue st path with
  | some v => some v
  | none => dflt

/-- The ancestor loop of `notifySubscribers`:
`for (let i = parts.length - 1; i >= 0; i--)` with
`parentPath = parts.slice(0, i).join('.')`, skipping a falsy (empty)
`parentPath`; each notified ancestor subscriber receives
`(currentValueAtAncestor, undefined, changedPath)`.  The counter is the
current index `i`; index `0` always yields the empty string and is
skipped, which is the base case. -/
def parentNotify (throws : Nat → Bool) (st : SMState) (parts : List String) (changedPath : String) : Nat → List SMEvent
  | 0 => []
  | i + 1 =>
    let parentPath := joinDots (parts.take (i + 1))
    (if parentPath ≠ "" ∧ (alookup st.subscribers parentPath).isSome then
      forEachInvoke throws (getValue st parentPath) none changedPath (subsAt st parentPath)
    else []) ++ parentNotify throws st parts changedPath i

/-- Model of `StateManager.notifySubscribers(changedPath, newValue, oldValue)`:
exact subscribers, then ancestor subscribers from the nearest ancestor
to the root, then wildcard (`"*"`) subscribers with the whole tree, then
the mirrored `EventBus.emit('state:' + changedPath, ...)`. -/
def notifySubs (throws : Nat → Bool) (st : SMState) (changedPath : String) (newValue : Value) (oldValue : Option Value) : List SMEvent :=
  (if (alookup st.subscribers changedPath).isSome then
    forEachInvoke throws (some newValue) oldValue changedPath (subsAt st changedPath)
  else []) ++
  parentNotify throws st (jsSplit changedPath) changedPath ((jsSplit changedPath).length - 1) ++
  (if (alookup st.subscribers "*").isSome then
    forEachInvoke throws (some st.state) oldValue changedPath (subsAt st "*")
  else []) ++
  [.mirror ("state:" ++ changedPath)]

/-- Model of `StateManager.recordHistory(oldState)`: truncate any undone future,
push the pre-mutation snapshot, advance the cursor, and drop the oldest
entry past capacity. -/
def truncatedHistory (st : SMState) : List Value :=
  if st.historyIndex < (st.history.length : Int) - 1 then
    st.history.take (st.historyIndex + 1).toNat
  else st.history

def recordHistory (st : SMState) (oldState : Value) : SMState :=
  if (truncatedHistory st ++ [oldState]).length > st.maxHistoryLength then
    { st with history := (truncatedHistory st ++ [oldState]).drop 1,
              historyIndex := st.historyIndex + 1 - 1 }
  else
    { st with history := truncatedHistory st ++ [oldState],
              historyIndex := st.historyIndex + 1 }

/-- A `localStorage.setItem` call happens only when persistence is
enabled (`persistState`). -/
def persistEvs (st : SMState) : List SMEvent :=
  if st.persistEnabled then [.persistWrite] else []

/-- Outcome of a store operation that can throw: on `err` the store state
is the state at the moment of the throw (`set` throws before any
mutation, so there it is the input state). -/
inductive SMOut where
  | ok (st : SMState) (evs : List SMEvent)
  | err (msg : String) (st : SMState) (evs : List SMEvent)

/-- Model of `StateManager.set(path, value, notify)`: snapshot the pre-mutation
tree, write through `setWalk`, record history, persist, then (optionally)
notify.  A `TypeError` raised by the walk propagates to the caller with
nothing recorded or persisted. -/
def smSet (throws : Nat → Bool) (path : String) (value : Value) (notify : Bool) (st : SMState) : SMOut :=
  match splitPop (jsSplit path) with
  | none => .err "unreachable: split never yields an empty list" st []
  | some (keys, lastKey) =>
    let oldState := st.state
    match setWalk st.state keys lastKey value with
    | .error e => .err e st []
    | .ok (newTree, oldValue) =>
      let st2 := recordHistory { st with state := newTree } oldState
      .ok st2 (persistEvs st2 ++ (if notify then notifySubs throws st2 path value oldValue else []))

/-- The write loop of `batchUpdate`: `this.set(path, value, false)` for
each entry; an exception propagates, keeping the earlier writes. -/
def smBatchLoop (throws : Nat → Bool) (st : SMState) : List (String × Value) → SMOut
  | [] => .ok st []
  | (path, v) :: rest =>
    match smSet throws path v false st with
    | .err e st' evs => .err e st' evs
    | .ok st' evs =>
      match smBatchLoop throws st' rest with
      | .err e st'' evs' => .err e st'' (evs ++ evs')
      | .ok st'' evs' => .ok st'' (evs ++ evs')

/-- Model of `StateManager.batchUpdate(updates)`: apply every write without
notification, record one more history entry for the pre-batch snapshot,
persist, then notify once per entry with `oldValue = this.get(path)`
(read back after the writes). -/
def smBatchUpdate (throws : Nat → Bool) (updates : List (String × Value)) (st : SMState) : SMOut :=
  let oldState := st.state
  match smBatchLoop throws st updates with
  | .err e st' evs => .err e st' evs
  | .ok st1 evs1 =>
    let st2 := recordHistory st1 oldState
    .ok st2 (evs1 ++ persistEvs st2 ++
      updates.flatMap (fun u => notifySubs throws st2 u.1 u.2 (getValue st2 u.1)))

/-- Model of `StateManager.subscribe(path, callback)` (Set add under the path
key). -/
def smSubscribe (st : SMState) (path : String) (id : Nat) : SMState :=
  { st with subscribers :=
      match alookup st.subscribers path with
      | none => aset st.subscribers path [id]
      | some l => if l.contains id then st.subscribers else aset st.subscribers path (l ++ [id]) }

/-- Model of `StateManager.undo()`: restore the snapshot at the cursor, move the
cursor back, notify with the wildcard pattern
(`notifySubscribers('*', this.state, null)`). The out-of-range default
models the JS `undefined` read and is unreachable under the maintained
history invariant. -/
def smUndo (throws : Nat → Bool) (st : SMState) : Bool × SMState × List SMEvent :=
  if st.historyIndex < 0 then (false, st, [])
  else
    let previous := (st.history.get? st.historyIndex.toNat).getD .vnull
    let st1 := { st with historyIndex := st.historyIndex - 1, state := previous }
    (true, st1, notifySubs throws st1 "*" st1.state (some .vnull))

/-- Model of `StateManager.redo()`: advance the cursor and re-load the snapshot
stored there, notifying with the wildcard pattern. -/
def smRedo (throws : Nat → Bool) (st : SMState) : Bool × SMState × List SMEvent :=
  if st.historyIndex ≥ (st.history.length : Int) - 1 then (false, st, [])
  else
    let idx := st.historyIndex + 1
    let next := (st.history.get? idx.toNat).getD .vnull
    let st1 := { st with historyIndex := idx, state := next }
    (true, st1, notifySubs throws st1 "*" st1.state (some .vnull))

/-- Model of `StateManager.getInitialState()`, field for field. -/
def initialState : Value :=
  .vobj [
    ("agent", .vobj [
      ("name", .vstr "OpenClaw"),
      ("avatar", .vnull),
      ("status", .vstr "idle"),
      ("currentTask", .vnull)]),
    ("tasks", .vobj [
      ("completed", .varr []),
      ("pending", .varr []),
      ("inProgress", .varr [])]),
    ("learning", .vobj [
      ("items", .varr [])]),
    ("api", .vobj [
      ("balances", .varr []),
      ("lastUpdated", .vnull)]),
    ("models", .vobj [
      ("current", .vnull),
      ("fallback", .vnull)]),
    ("ui", .vobj [
      ("sidebarOpen", .vbool true),
      ("infoPanelOpen", .vbool true),
      ("expandedTaskId", .vnull),
      ("theme", .vstr "dark")]),
    ("config", .vobj [
      ("refreshInterval", .vnum 30000),
      ("balanceWarningThreshold", .vnum 20),
      ("balanceCriticalThreshold", .vnum 10)])]

/-- Model of `StateManager.reset()`: default tree, cleared history, cleared
persisted copy, wildcard notification with the replaced tree as the old
value. -/
def smReset (throws : Nat → Bool) (st : SMState) : SMState × List SMEvent :=
  let oldState := st.state
  let st1 := { st with state := initialState, history := [], historyIndex := -1 }
  (st1, .persistRemove :: notifySubs throws st1 "*" st1.state (some oldState))

/-- Model of `StateManager.getState()` (a deep clone, which is the identity on
`Value`). -/
def smGetState (st : SMState) : Value := st.state

/-- A freshly constructed `StateManagerClass` with empty `localStorage`
(`loadPersistedState` finds nothing and changes nothing). -/
def initialSM : SMState :=
  { state := initialState
    subscribers := []
    history := []
    historyIndex := -1
    maxHistoryLength := 50
    persistEnabled := true }

/-- The never-throwing callback environment. -/
def noThrow : Nat → Bool := fun _ => false

/-! ## EventBus (src/unnamed/part_003) -/

/-- What a bus callback does when invoked: return normally, throw, or
re-entrantly call `EventBus.on(topic, newId)` before returning. -/
inductive CbBeh where
  | pure
  | throws
  | subscribes (topic : String) (newId : Nat)

/-- State of `EventBusClass`: `this.events`, a `Map` from topic to a `Set`
of callbacks (`this.onceEvents` is declared but never used by the
code). -/
structure BusState where
  events : List (String × List Nat)

/-- One observed bus effect: an invocation (with whether the callback
returned normally — a throw is caught and logged by `emit`), or
exhaustion of the iteration fuel (models divergence; never reached by
any theorem input). -/
inductive BusEvent where
  | invoke (id : Nat) (ok : Bool)
  | fuelOut

/-- Model of `EventBus.on(event, callback)`: create the `Set` on first use, then
`Set.add` (a no-op for an already-present callback). -/
def busOn (st : BusState) (topic : String) (id : Nat) : BusState :=
  match alookup st.events topic with
  | none => ⟨aset st.events topic [id]⟩
  | some l => if l.contains id then st else ⟨aset st.events topic (l ++ [id])⟩

/-- Run one bus callback under the `try`/`catch` of `emit`: a throw is
caught (`ok = false`); a re-entrant `on` mutates the bus. -/
def runBusCb (beh : Nat → CbBeh) (st : BusState) (id : Nat) : BusState × BusEvent :=
  match beh id with
  | .pure => (st, .invoke id true)
  | .throws => (st, .invoke id false)
  | .subscribes t k => (busOn st t k, .invoke id true)

/-- JS `Set.prototype.forEach` over the live callback set of `topic`:
repeatedly invoke the first not-yet-visited callback in the current
insertion order.  Elements added during the iteration (by a re-entrant
`on`) are visited; this is the specified JS `Set.forEach` behaviour.
Fuel bounds the number of iterations. -/
def busForEach (beh : Nat → CbBeh) : Nat → BusState → String → List Nat → BusState × List BusEvent
  | 0, st, _, _ => (st, [.fuelOut])
  | fuel + 1, st, topic, visited =>
    match ((alookup st.events topic).getD []).find? (fun id => !visited.contains id) with
    | none => (st, [])
    | some id =>
      let p := runBusCb beh st id
      let q := busForEach beh fuel p.1 topic (visited ++ [id])
      (q.1, p.2 :: q.2)

/-- One guarded pass of `emit`: iterate the callbacks of `topic` when
`this.events.has(topic)` holds, else do nothing. -/
def busEmitPass1 (beh : Nat → CbBeh) (fuel : Nat) (st : BusState) (topic : String) : BusState × List BusEvent :=
  if (alookup st.events topic).isSome then busForEach beh fuel st topic [] else (st, [])

/-- Model of `EventBus.emit(event, data)`: iterate the exact-topic callbacks, then
the wildcard (`"*"`) callbacks, each pass guarded by `events.has(...)`
and re-reading the map (so a wildcard subscriber added during the first
pass is seen by the second). -/
def busEmitOp (beh : Nat → CbBeh) (fuel : Nat) (st : BusState) (topic : String) : BusState × List BusEvent :=
  ((busEmitPass1 beh fuel (busEmitPass1 beh fuel st topic).1 "*").1,
   (busEmitPass1 beh fuel st topic).2 ++
     (busEmitPass1 beh fuel (busEmitPass1 beh fuel st topic).1 "*").2)

/-- The callback identifiers invoked during a bus trace, in order. -/
def busInvoked (evs : List BusEvent) : List Nat :=
  evs.filterMap (fun e => match e with | .invoke i _ => some i | _ => none)

/-! ## ModuleRegistry (src/js/core/ModuleRegistry.js) -/

/-- A module definition / instance: whether it has an `init` hook and
whether that hook throws.  Instantiation (`{...definition}`) copies the
definition.  Render hooks never run in the modelled headless environment
(every theorem input has `container = null`, and `document.querySelector`
finds nothing), so they carry no flag. -/
structure ModDef where
  hasInit : Bool
  initThrows : Bool
deriving DecidableEq

/-- A module's stored configuration, after the defaulting done by
`register`. -/
structure ModConfig where
  id : String
  name : String
  container : Option String
  dependencies : List String
  enabled : Bool
  priority : Int
deriving DecidableEq

/-- State of `ModuleRegistryClass`. -/
structure RegState where
  modules : List (String × ModDef)
  configs : List (String × ModConfig)
  instances : List (String × ModDef)
  initialized : List String
  isInitializing : Bool

/-- Observable registry effects: the lifecycle events published on the
bus, and each `await this.init(id)` issued by the `initAll` loop. -/
inductive REvent where
  | moduleLoaded (id : String)
  | moduleError (id : String)
  | initCall (id : String)

/-- Outcome of `init`: normal return, a propagating exception (with the
mutated registry — JS mutates in place before throwing), or fuel
exhaustion (modelling unbounded recursion). -/
inductive IRes where
  | ok (rs : RegState) (tr : List REvent)
  | err (msg : String) (rs : RegState) (tr : List REvent)
  | timeout

/-- The dependency loop of `init`:
`for (const depId of config.dependencies) if (!this.initialized.has(depId)) await this.init(depId)`.
It runs before the `try` block, so an exception from a dependency
propagates uncaught. -/
def runDeps (step : String → RegState → IRes) : List String → RegState → List REvent → IRes
  | [], rs, tr => .ok rs tr
  | d :: rest, rs, tr =>
    if rs.initialized.contains d then runDeps step rest rs tr
    else
      match step d rs with
      | .ok rs1 tr1 => runDeps step rest rs1 (tr ++ tr1)
      | .err m rs1 tr1 => .err m rs1 (tr ++ tr1)
      | .timeout => .timeout

/-- Model of `ModuleRegistry.init(id)`: return if already initialized; throw on an
unknown id; skip a disabled module; initialize dependencies first; then,
inside `try`, create and store the instance, run its `init` hook (whose
throw is caught, published as `MODULE_ERROR`, and re-thrown), skip the
render step (headless), mark initialized and publish `MODULE_LOADED`.
Fuel bounds the dependency recursion depth. -/
def initM : Nat → String → RegState → IRes
  | 0, _, _ => .timeout
  | fuel + 1, id, rs =>
    if rs.initialized.contains id then .ok rs []
    else
      match alookup rs.modules id, alookup rs.configs id with
      | none, _ => .err ("ModuleRegistry: Module \x22" ++ id ++ "\x22 not found") rs []
      | some _, none => .err "TypeError" rs []
      | some defn, some cfg =>
        if !cfg.enabled then .ok rs []
        else
          match runDeps (initM fuel) cfg.dependencies rs [] with
          | .err m rs1 tr1 => .err m rs1 tr1
          | .timeout => .timeout
          | .ok rs1 tr1 =>
            if defn.hasInit && defn.initThrows then
              .err ("init hook of \x22" ++ id ++ "\x22 threw")
                { rs1 with instances := aset rs1.instances id defn } (tr1 ++ [.moduleError id])
            else
              .ok { rs1 with instances := aset rs1.instances id defn,
                             initialized := rs1.initialized ++ [id] } (tr1 ++ [.moduleLoaded id])

/-- The enabled registrations, in registration (insertion) order. -/
def enabledConfigs (rs : RegState) : List (String × ModConfig) :=
  rs.configs.filter (fun e => e.2.enabled)

/-- Descending insertion of a priority into a strictly-descending
duplicate-free list. -/
def insertPriority (x : Int) : List Int → List Int
  | [] => [x]
  | y :: ys =>
    if x > y then x :: y :: ys
    else if x = y then y :: ys
    else y :: insertPriority x ys

/-- The distinct priorities present, in strictly descending order. -/
def prioritiesDesc (l : List Int) : List Int := l.foldr insertPriority []

/-- The sorted enabled registrations of `initAll`:
`Array.from(this.configs.entries()).filter(enabled).sort((a,b) => b.priority - a.priority)`.
`Array.prototype.sort` is stable, and a stable sort by descending
priority is exactly: for each distinct priority in descending order, the
entries carrying it in registration order. -/
def sortEntries (rs : RegState) : List (String × ModConfig) :=
  (prioritiesDesc ((enabledConfigs rs).map (fun e => e.2.priority))).flatMap
    (fun p => (enabledConfigs rs).filter (fun e => e.2.priority = p))

/-- The module ids `initAll` walks, in order. -/
def sortIds (rs : RegState) : List String :=
  (sortEntries rs).map (fun e => e.1)

/-- The `for (const id of sortedIds)` loop of `initAll`: each `init` call
is recorded as an `initCall` event; an exception from `init` is caught
and logged, and the loop continues.  `none` models divergence of an
`init` call. -/
def initAllLoop (fuel : Nat) : List String → RegState → List REvent → Option (RegState × List REvent)
  | [], rs, tr => some (rs, tr)
  | id :: rest, rs, tr =>
    match initM fuel id rs with
    | .ok rs1 tr1 => initAllLoop fuel rest rs1 (tr ++ .initCall id :: tr1)
    | .err _ rs1 tr1 => initAllLoop fuel rest rs1 (tr ++ .initCall id :: tr1)
    | .timeout => none

/-- Model of `ModuleRegistry.initAll()`: no-op when already initializing,
otherwise walk the sorted enabled ids with per-module failure
isolation. -/
def initAll (fuel : Nat) (rs : RegState) : Option (RegState × List REvent) :=
  if rs.isInitializing then some (rs, [])
  else
    match initAllLoop fuel (sortIds { rs with isInitializing := true })
        { rs with isInitializing := true } [] with
    | none => none
    | some (rs1, tr) => some ({ rs1 with isInitializing := false }, tr)

/-- The result state and trace (defined when it terminates). -/
def initAllResult (fuel : Nat) (rs : RegState) : RegState × List REvent :=
  (initAll fuel rs).getD (rs, [])

/-- Model of `ModuleRegistry.get(id)`. -/
def regGet (rs : RegState) (id : String) : Option ModDef :=
  alookup rs.instances id

/-- Model of `ModuleRegistry.list()`: every registration with its configuration
and initialized flag. -/
def regList (rs : RegState) : List (String × ModConfig × Bool) :=
  rs.configs.map (fun e => (e.1, e.2, rs.initialized.contains e.1))

/-- The ids passed to `init` by the `initAll` loop, in order. -/
def callsOf (tr : List REvent) : List String :=
  tr.filterMap (fun e => match e with | .initCall id => some id | _ => none)

/-! ## Specification-side definitions and concrete instances -/

/-- Strict ancestor paths of a split path, nearest ancestor first:
the joins of its proper front segments of lengths `k, k-1, ..., 1`. -/
def ancChain (parts : List String) : Nat → List String
  | 0 => []
  | k + 1 => joinDots (parts.take (k + 1)) :: ancChain parts k

/-- Follows the specification's words: the strict ancestors of
`changedPath`, from the nearest ancestor outward to the root. -/
def specAncestors (parts : List String) : List String :=
  ancChain parts (parts.length - 1)

/-- Follows the specification's words for the notification cascade: (a)
exact subscribers of `changedPath` with `(newValue, oldValue,
changedPath)`; then (b) subscribers of each strict ancestor, nearest
first, with `(currentValueAtAncestor, undefined, changedPath)`; then (c)
wildcard subscribers with `(wholeTree, oldValue, changedPath)`; then the
mirrored bus event. -/
def specCascade (throws : Nat → Bool) (st : SMState) (changedPath : String) (newValue : Value) (oldValue : Option Value) : List SMEvent :=
  forEachInvoke throws (some newValue) oldValue changedPath (subsAt st changedPath) ++
  (specAncestors (jsSplit changedPath)).flatMap
    (fun a => forEachInvoke throws (getValue st a) none changedPath (subsAt st a)) ++
  forEachInvoke throws (some st.state) oldValue changedPath (subsAt st "*") ++
  [.mirror ("state:" ++ changedPath)]

/-- How many times callback `k` is invoked in a store trace. -/
def countInvokes (k : Nat) : List SMEvent → Nat
  | [] => 0
  | .invoke i _ _ _ _ :: rest => (if i = k then 1 else 0) + countInvokes k rest
  | .persistWrite :: rest => countInvokes k rest
  | .persistRemove :: rest => countInvokes k rest
  | .mirror _ :: rest => countInvokes k rest

/-- The callback identifiers invoked in a store trace, in order. -/
def smInvokedIds (evs : List SMEvent) : List Nat :=
  evs.filterMap (fun e => match e with | .invoke i _ _ _ _ => some i | _ => none)

/-- Whether a callback returns normally under a non-mutating behaviour
environment. -/
def behFlag (beh : Nat → CbBeh) (id : Nat) : Bool :=
  match beh id with
  | .throws => false
  | _ => true

/-- Callback 1 re-entrantly subscribes callback 2 to the same topic
while being invoked. -/
def c5beh : Nat → CbBeh := fun n => if n = 1 then .subscribes "t" 2 else .pure

/-- A bus with only callback 1 on topic `"t"`. -/
def c5bus : BusState := ⟨[("t", [1])]⟩

/-- A module definition with no hooks, used in the cyclic registry. -/
def cycModDef : ModDef := ⟨false, false⟩

/-- Module A depends on B. -/
def cycCfgA : ModConfig := ⟨"A", "A", none, ["B"], true, 0⟩

/-- Module B depends on A. -/
def cycCfgB : ModConfig := ⟨"B", "B", none, ["A"], true, 0⟩

/-- A registry whose enabled modules A and B form a dependency cycle. -/
def cycleReg : RegState :=
  ⟨[("A", cycModDef), ("B", cycModDef)], [("A", cycCfgA), ("B", cycCfgB)], [], [], false⟩

/-- A two-module registry for the isolation witness: X's init hook
throws, Y's succeeds, both enabled, independent (no dependencies). -/
def c8reg : RegState :=
  ⟨[("X", ⟨true, true⟩), ("Y", ⟨true, false⟩)],
   [("X", ⟨"X", "X", none, [], true, 0⟩), ("Y", ⟨"Y", "Y", none, [], true, 0⟩)],
   [], [], false⟩

/-! ## Helper projections and lemmas -/

/-- The store state carried by an operation outcome. -/
def smOutState : SMOut → SMState
  | .ok st _ => st
  | .err _ st _ => st

/-- Whether a store operation returned normally. -/
def smOutOk : SMOut → Bool
  | .ok _ _ => true
  | .err _ _ _ => false

/-- The trace carried by an operation outcome. -/
def smOutEvs : SMOut → List SMEvent
  | .ok _ evs => evs
  | .err _ _ evs => evs

/-- The `localStorage.setItem` calls in a store trace. -/
def persistCount (evs : List SMEvent) : Nat :=
  (evs.filter (fun e => match e with | .persistWrite => true | _ => false)).length

theorem alookup_aset_self {α : Type} (l : List (String × α)) (k : String) (v : α) :
    alookup (aset l k v) k = some v := by
  induction l with
  | nil => simp [aset, alookup]
  | cons h t ih =>
    obtain ⟨k', w⟩ := h
    by_cases hk : k' = k
    · simp [aset, hk, alookup]
    · simp [aset, hk, alookup, ih]

theorem recordHistory_state (st : SMState) (o : Value) :
    (recordHistory st o).state = st.state := by
  unfold recordHistory
  split <;> rfl

theorem recordHistory_subscribers (st : SMState) (o : Value) :
    (recordHistory st o).subscribers = st.subscribers := by
  unfold recordHistory
  split <;> rfl

theorem splitPop_append : ∀ (l a : List String) (b : String),
    splitPop l = some (a, b) → l = a ++ [b] := by
  intro l
  induction l with
  | nil => intro a b h; simp [splitPop] at h
  | cons x t ih =>
    intro a b h
    cases t with
    | nil => simp [splitPop] at h; simp [h.1.symm, h.2.symm]
    | cons y r =>
      rw [splitPop] at h
      cases hrec : splitPop (y :: r) with
      | none => rw [hrec] at h; simp at h
      | some p =>
        rw [hrec] at h
        obtain ⟨front, last⟩ := p
        simp at h
        have := ih front last hrec
        rw [← h.1, ← h.2]
        simp [this]

theorem get?_set_self {α : Type} (l : List α) (i : Nat) (v : α) (h : i < l.length) :
    (l.set i v).get? i = some v := by
  simp [List.get?_eq_getElem?, List.getElem?_set_self', List.getElem?_eq_getElem, h]

theorem getElem?_set_self {α : Type} (l : List α) (i : Nat) (v : α) (h : i < l.length) :
    (l.set i v)[i]? = some v := by
  simp [List.getElem?_set_self', List.getElem?_eq_getElem, h]

/-- Core of the set/get round-trip: a successful `setWalk` leaves the
written value readable at the same key list. -/
theorem setWalk_get : ∀ (keys : List String) (v : Value) (lastKey : String) (newVal v' : Value) (old : Option Value),
    setWalk v keys lastKey newVal = .ok (v', old) →
    jsGetLoop v' (keys ++ [lastKey]) = some newVal := by
  intro keys
  induction keys with
  | nil =>
    intro v lastKey newVal v' old h
    cases v with
    | vobj fields =>
      simp only [setWalk, Except.ok.injEq, Prod.mk.injEq] at h
      rw [← h.1]
      simp [jsGetLoop, lookupKey, alookup_aset_self]
    | varr elems =>
      simp only [setWalk] at h
      cases hn : lastKey.toNat? with
      | none => simp only [hn] at h; exact Except.noConfusion h
      | some i =>
        simp only [hn] at h
        by_cases hi : i < elems.length
        · simp only [hi, if_true, Except.ok.injEq, Prod.mk.injEq] at h
          rw [← h.1]
          simp [jsGetLoop, lookupKey, hn, List.get?_eq_getElem?, getElem?_set_self _ _ _ hi]
        · simp [hi] at h
    | vnull => simp [setWalk] at h
    | vbool b => simp [setWalk] at h
    | vnum n => simp [setWalk] at h
    | vstr s => simp [setWalk] at h
  | cons k ks ih =>
    intro v lastKey newVal v' old h
    cases v with
    | vobj fields =>
      simp only [setWalk] at h
      cases ha : alookup fields k with
      | some child =>
        simp only [ha] at h
        cases hw : setWalk child ks lastKey newVal with
        | error e => simp only [hw] at h; exact Except.noConfusion h
        | ok p =>
          obtain ⟨child', old'⟩ := p
          simp only [hw, Except.ok.injEq, Prod.mk.injEq] at h
          rw [← h.1]
          simp only [List.cons_append, jsGetLoop, lookupKey, alookup_aset_self]
          exact ih child lastKey newVal child' old' hw
      | none =>
        simp only [ha] at h
        cases hw : setWalk (.vobj []) ks lastKey newVal with
        | error e => simp only [hw] at h; exact Except.noConfusion h
        | ok p =>
          obtain ⟨child', old'⟩ := p
          simp only [hw, Except.ok.injEq, Prod.mk.injEq] at h
          rw [← h.1]
          simp only [List.cons_append, jsGetLoop, lookupKey, alookup_aset_self]
          exact ih _ lastKey newVal child' old' hw
    | varr elems =>
      simp only [setWalk] at h
      cases hn : k.toNat? with
      | none => simp only [hn] at h; exact Except.noConfusion h
      | some i =>
        simp only [hn] at h
        cases hg : elems.get? i with
        | none => simp only [hg] at h; exact Except.noConfusion h
        | some child =>
          simp only [hg] at h
          cases hw : setWalk child ks lastKey newVal with
          | error e => simp only [hw] at h; exact Except.noConfusion h
          | ok p =>
            obtain ⟨child', old'⟩ := p
            simp only [hw, Except.ok.injEq, Prod.mk.injEq] at h
            rw [← h.1]
            have hi : i < elems.length := by
              by_contra hcon
              rw [List.get?_eq_getElem?, List.getElem?_eq_none (by omega)] at hg
              simp at hg
            simp only [List.cons_append, jsGetLoop, lookupKey, hn, get?_set_self _ _ _ hi]
            exact ih child lastKey newVal child' old' hw
    | vnull => simp [setWalk] at h
    | vbool b => simp [setWalk] at h
    | vnum n => simp [setWalk] at h
    | vstr s => simp [setWalk] at h

/-! ## Claim C1 — undo/redo round-trip -/

/-- C1 (evaluation at the failing input): on a fresh store,
`set('agent.status', 'working')` then `undo()` does restore the
pre-mutation snapshot (`getState()` deep-equals `snapshot0`), but the
subsequent `redo()` — though it returns `true` — reloads the same
pre-mutation snapshot, so `get('agent.status')` is the initial `'idle'`,
not the written `'working'`: the history stack stores only pre-mutation
snapshots, so `redo` can never reach the undone-to state. -/
theorem c1_undo_redo_eval :
    smOutOk (smSet noThrow "agent.status" (.vstr "working") true initialSM) = true ∧
    (smUndo noThrow (smOutState (smSet noThrow "agent.status" (.vstr "working") true initialSM))).1 = true ∧
    smGetState (smUndo noThrow (smOutState (smSet noThrow "agent.status" (.vstr "working") true initialSM))).2.1
      = smGetState initialSM ∧
    (smRedo noThrow (smUndo noThrow (smOutState (smSet noThrow "agent.status" (.vstr "working") true initialSM))).2.1).1 = true ∧
    getValue (smRedo noThrow (smUndo noThrow (smOutState (smSet noThrow "agent.status" (.vstr "working") true initialSM))).2.1).2.1 "agent.status"
      = some (.vstr "idle") :=
  ⟨rfl, rfl, rfl, rfl, rfl⟩

/-! ## Claim C2 — batchUpdate history/persist accounting -/

/-- C2 (evaluation at the failing input): `batchUpdate` with two entries
on a fresh store records three history entries and persists three times
— each inner `set(path, value, false)` still calls `recordHistory` and
`persistState`, and `batchUpdate` then records and persists once more —
where the claim says one history entry and one persist. -/
theorem c2_batch_eval :
    smOutOk (smBatchUpdate noThrow [("agent.status", .vstr "working"), ("ui.theme", .vstr "light")] initialSM) = true ∧
    (smOutState (smBatchUpdate noThrow [("agent.status", .vstr "working"), ("ui.theme", .vstr "light")] initialSM)).history.length = 3 ∧
    persistCount (smOutEvs (smBatchUpdate noThrow [("agent.status", .vstr "working"), ("ui.theme", .vstr "light")] initialSM)) = 3 :=
  ⟨rfl, rfl, rfl⟩

/-! ## Claim C3 — set/get round-trip -/

/-- C3 (counterexample): the round-trip fails for a path whose strict
ancestor holds an existing scalar: on the fresh store, where
`agent.name` is the string `'OpenClaw'`, `set('agent.name.x', 1)` throws
a `TypeError` (strict-mode assignment on a primitive), so `set` does not
succeed and `get` cannot return the written value. -/
theorem c3_scalar_ancestor_cx :
    smSet noThrow "agent.name.x" (.vnum 1) true initialSM = .err "TypeError" initialSM [] :=
  rfl

/-- C3 (amended): whenever `set(P, V)` returns normally — which it does
exactly when every existing segment along `P` resolves to a mapping (or
an in-range array index), absent intermediate segments being created as
empty mappings — `get(P)` afterwards returns `V`, from any store
state. -/
theorem c3_set_get_roundtrip (throws : Nat → Bool) (st : SMState) (path : String) (v : Value)
    (st' : SMState) (evs : List SMEvent)
    (h : smSet throws path v true st = .ok st' evs) :
    getValue st' path = some v := by
  unfold smSet at h
  cases hs : splitPop (jsSplit path) with
  | none => simp only [hs] at h; exact SMOut.noConfusion h
  | some p =>
    obtain ⟨keys, lastKey⟩ := p
    simp only [hs] at h
    cases hw : setWalk st.state keys lastKey v with
    | error e => simp only [hw] at h; exact SMOut.noConfusion h
    | ok q =>
      obtain ⟨newTree, oldValue⟩ := q
      simp only [hw, SMOut.ok.injEq] at h
      have hst : st'.state = newTree := by
        rw [← h.1, recordHistory_state]
      unfold getValue
      rw [hst, splitPop_append (jsSplit path) keys lastKey hs]
      exact setWalk_get keys st.state lastKey v newTree oldValue hw

/-- C3 witness: a concrete successful round-trip through the amended
theorem. -/
theorem c3_set_get_witness :
    getValue (smOutState (smSet noThrow "x.y" (.vnum 5) true initialSM)) "x.y" = some (.vnum 5) :=
  c3_set_get_roundtrip noThrow initialSM "x.y" (.vnum 5)
    (smOutState (smSet noThrow "x.y" (.vnum 5) true initialSM))
    (smOutEvs (smSet noThrow "x.y" (.vnum 5) true initialSM)) rfl

/-! ## Claim C4 — notification cascade order and arguments -/

theorem gated_forEach (throws : Nat → Bool) (a1 a2 : Option Value) (cp : String) (st : SMState) (p : String) :
    (if (alookup st.subscribers p).isSome then forEachInvoke throws a1 a2 cp (subsAt st p) else [])
      = forEachInvoke throws a1 a2 cp (subsAt st p) := by
  cases hl : alookup st.subscribers p with
  | none => simp [subsAt, hl, forEachInvoke]
  | some l => simp [hl]

theorem joinDots_cons_ne (p : String) (t : List String) (hp : p ≠ "") :
    joinDots (p :: t) ≠ "" := by
  cases t with
  | nil => simpa [joinDots]
  | cons q r =>
    simp only [joinDots]
    intro hcon
    have hlen := congrArg String.length hcon
    simp [String.length_append] at hlen
    exact absurd hlen.1.2 (by decide)

theorem joinDots_take_ne (parts : List String) (hne : "" ∉ parts) (hparts : parts ≠ [])
    (k : Nat) (hk : 1 ≤ k) : joinDots (parts.take k) ≠ "" := by
  cases parts with
  | nil => exact absurd rfl hparts
  | cons p t =>
    cases k with
    | zero => omega
    | succ n =>
      simp only [List.take_succ_cons]
      exact joinDots_cons_ne p _ (fun h => hne (h ▸ List.mem_cons_self p t))

theorem splitDotChars_ne_nil (l : List Char) : splitDotChars l ≠ [] := by
  cases l with
  | nil => simp [splitDotChars]
  | cons c rest =>
    simp only [splitDotChars]
    cases h : splitDotChars rest with
    | nil => simp
    | cons a b => by_cases hc : c = '.' <;> simp [hc]

theorem jsSplit_ne_nil (s : String) : jsSplit s ≠ [] := by
  unfold jsSplit
  simp [splitDotChars_ne_nil]

theorem parentNotify_eq (throws : Nat → Bool) (st : SMState) (parts : List String) (cp : String) :
    ∀ i, (∀ k, 1 ≤ k → k ≤ i → joinDots (parts.take k) ≠ "") →
    parentNotify throws st parts cp i =
      (ancChain parts i).flatMap
        (fun a => forEachInvoke throws (getValue st a) none cp (subsAt st a)) := by
  intro i
  induction i with
  | zero => intro _; rfl
  | succ n ih =>
    intro hk
    have hne : joinDots (parts.take (n + 1)) ≠ "" := hk (n + 1) (by omega) (le_refl _)
    simp only [parentNotify, ancChain, List.flatMap_cons]
    rw [ih (fun k h1 h2 => hk k h1 (by omega))]
    congr 1
    cases hl : alookup st.subscribers (joinDots (parts.take (n + 1))) with
    | none => simp [hne, hl, subsAt, forEachInvoke]
    | some l => simp [hne, hl]

/-- C4: on every write to `changedPath` (a path with non-empty
segments), the notification routine produces exactly the cascade
prescribed by the specification: exact subscribers with `(newValue,
oldValue, changedPath)`, then each strict ancestor's subscribers from
the nearest ancestor outward to the root with `(currentValueAtAncestor,
undefined, changedPath)` — each ancestor once — then wildcard
subscribers with `(wholeTree, oldValue, changedPath)`, then the mirrored
`state:<path>` bus publish. -/
theorem c4_cascade_order (throws : Nat → Bool) (st : SMState) (path : String)
    (newValue : Value) (oldValue : Option Value)
    (hseg : "" ∉ jsSplit path) :
    notifySubs throws st path newValue oldValue = specCascade throws st path newValue oldValue := by
  unfold notifySubs specCascade
  rw [gated_forEach throws (some newValue) oldValue path st path,
      gated_forEach throws (some st.state) oldValue path st "*"]
  rw [parentNotify_eq throws st (jsSplit path) path ((jsSplit path).length - 1)
      (fun k h1 _ => joinDots_take_ne (jsSplit path) hseg (jsSplit_ne_nil path) k h1)]
  rfl

/-- C4 witness: the cascade equality at a concrete store with an exact,
an ancestor, and a wildcard subscriber. -/
theorem c4_cascade_witness :
    notifySubs noThrow
      { initialSM with subscribers := [("agent.status", [1]), ("agent", [2]), ("*", [3])] }
      "agent.status" (.vstr "working") (some (.vstr "idle"))
    = specCascade noThrow
      { initialSM with subscribers := [("agent.status", [1]), ("agent", [2]), ("*", [3])] }
      "agent.status" (.vstr "working") (some (.vstr "idle")) :=
  c4_cascade_order noThrow
    { initialSM with subscribers := [("agent.status", [1]), ("agent", [2]), ("*", [3])] }
    "agent.status" (.vstr "working") (some (.vstr "idle")) (by decide)

/-! ## Claim C9 — wildcard subscribers fire twice on undo/redo/reset -/

theorem countInvokes_append (k : Nat) (a b : List SMEvent) :
    countInvokes k (a ++ b) = countInvokes k a + countInvokes k b := by
  induction a with
  | nil => simp [countInvokes]
  | cons e rest ih =>
    cases e <;> simp [countInvokes, ih] <;> omega

theorem countInvokes_forEach (throws : Nat → Bool) (a1 a2 : Option Value) (cp : String) (k : Nat) :
    ∀ l, countInvokes k (forEachInvoke throws a1 a2 cp l) = l.count k := by
  intro l
  induction l with
  | nil => rfl
  | cons id rest ih =>
    simp only [forEachInvoke]
    cases hr : runCb throws id with
    | error e =>
      simp only [countInvokes, ih, List.count_cons]
      by_cases h : id = k <;> simp [h] <;> omega
    | ok u =>
      simp only [countInvokes, ih, List.count_cons]
      by_cases h : id = k <;> simp [h] <;> omega

/-- On a wildcard-pattern notification (`changedPath = "*"`), a callback
registered once under `"*"` is invoked exactly twice: once by the
exact-path branch (whose key `"*"` is the wildcard key itself) and once
by the wildcard branch. -/
theorem countInvokes_notifyStar (throws : Nat → Bool) (st : SMState) (newV : Value)
    (oldV : Option Value) (k : Nat) (hk : (subsAt st "*").count k = 1) :
    countInvokes k (notifySubs throws st "*" newV oldV) = 2 := by
  unfold notifySubs
  rw [gated_forEach throws (some newV) oldV "*" st "*",
      gated_forEach throws (some st.state) oldV "*" st "*"]
  have hsplit : jsSplit "*" = ["*"] := rfl
  rw [hsplit]
  simp [parentNotify, countInvokes_append, countInvokes_forEach, hk, countInvokes]

/-- C9: on a store whose wildcard key `"*"` holds a callback `k` exactly
once, a successful `undo()` invokes `k` exactly twice (exact-path branch
for the changed path `"*"` plus the wildcard branch), and likewise a
successful `redo()` and every `reset()`. -/
theorem c9_wildcard_invoked_twice (throws : Nat → Bool) (st : SMState) (k : Nat)
    (hk : (subsAt st "*").count k = 1) :
    (st.historyIndex ≥ 0 →
      (smUndo throws st).1 = true ∧ countInvokes k (smUndo throws st).2.2 = 2) ∧
    (st.historyIndex < (st.history.length : Int) - 1 →
      (smRedo throws st).1 = true ∧ countInvokes k (smRedo throws st).2.2 = 2) ∧
    countInvokes k (smReset throws st).2 = 2 := by
  refine ⟨fun hidx => ?_, fun hidx => ?_, ?_⟩
  · unfold smUndo
    rw [if_neg (by omega)]
    exact ⟨rfl, countInvokes_notifyStar throws _ _ _ k hk⟩
  · unfold smRedo
    rw [if_neg (by omega)]
    exact ⟨rfl, countInvokes_notifyStar throws _ _ _ k hk⟩
  · unfold smReset
    simp only [countInvokes]
    exact countInvokes_notifyStar throws _ _ _ k hk

/-- C9 witness: concrete double invocation for undo, redo and reset. -/
theorem c9_wildcard_witness :
    ((smUndo noThrow { initialSM with subscribers := [("*", [7])], history := [initialState, initialState], historyIndex := 0 }).1 = true ∧
     countInvokes 7 (smUndo noThrow { initialSM with subscribers := [("*", [7])], history := [initialState, initialState], historyIndex := 0 }).2.2 = 2) ∧
    ((smRedo noThrow { initialSM with subscribers := [("*", [7])], history := [initialState, initialState], historyIndex := 0 }).1 = true ∧
     countInvokes 7 (smRedo noThrow { initialSM with subscribers := [("*", [7])], history := [initialState, initialState], historyIndex := 0 }).2.2 = 2) ∧
    countInvokes 7 (smReset noThrow { initialSM with subscribers := [("*", [7])], history := [initialState, initialState], historyIndex := 0 }).2 = 2 :=
  ⟨(c9_wildcard_invoked_twice noThrow _ 7 (by decide)).1 (by decide),
   (c9_wildcard_invoked_twice noThrow _ 7 (by decide)).2.1 (by decide),
   (c9_wildcard_invoked_twice noThrow _ 7 (by decide)).2.2⟩

/-! ## Claim C6 — callback-error isolation -/

theorem smInvokedIds_append (a b : List SMEvent) :
    smInvokedIds (a ++ b) = smInvokedIds a ++ smInvokedIds b := by
  simp [smInvokedIds]

theorem smInvokedIds_forEach (throws : Nat → Bool) (a1 a2 : Option Value) (cp : String) :
    ∀ l, smInvokedIds (forEachInvoke throws a1 a2 cp l) = l := by
  intro l
  induction l with
  | nil => rfl
  | cons id rest ih =>
    simp only [forEachInvoke]
    cases hr : runCb throws id <;> simp [smInvokedIds, ih] <;>
      simpa [smInvokedIds] using ih

theorem parentNotify_ids (throws₁ throws₂ : Nat → Bool) (st : SMState) (parts : List String) (cp : String) :
    ∀ i, smInvokedIds (parentNotify throws₁ st parts cp i)
      = smInvokedIds (parentNotify throws₂ st parts cp i) := by
  intro i
  induction i with
  | zero => rfl
  | succ n ih =>
    by_cases hc : joinDots (parts.take (n + 1)) ≠ "" ∧
        (alookup st.subscribers (joinDots (parts.take (n + 1)))).isSome
    · simp only [parentNotify, if_pos hc, smInvokedIds_append, ih, smInvokedIds_forEach]
    · simp only [parentNotify, if_neg hc, smInvokedIds_append, ih]

theorem gated_ids (t1 t2 : Nat → Bool) (a1 a2 b1 b2 : Option Value) (cp p : String) (st : SMState) :
    smInvokedIds (if (alookup st.subscribers p).isSome then forEachInvoke t1 a1 a2 cp (subsAt st p) else [])
      = smInvokedIds (if (alookup st.subscribers p).isSome then forEachInvoke t2 b1 b2 cp (subsAt st p) else []) := by
  split
  · rw [smInvokedIds_forEach, smInvokedIds_forEach]
  · rfl

theorem notifySubs_ids (throws : Nat → Bool) (st : SMState) (path : String)
    (newV : Value) (oldV : Option Value) :
    smInvokedIds (notifySubs throws st path newV oldV)
      = smInvokedIds (notifySubs noThrow st path newV oldV) := by
  unfold notifySubs
  simp only [smInvokedIds_append]
  rw [parentNotify_ids throws noThrow st (jsSplit path) path,
      gated_ids throws noThrow (some newV) oldV (some newV) oldV path path st,
      gated_ids throws noThrow (some st.state) oldV (some st.state) oldV path "*" st]

theorem find?_eq_head_filter {α : Type} (p : α → Bool) :
    ∀ l : List α, l.find? p = (l.filter p).head? := by
  intro l
  induction l with
  | nil => rfl
  | cons a t ih =>
    cases hp : p a
    · rw [List.find?_cons_of_neg _ (by simp [hp]), List.filter_cons_of_neg (by simp [hp]), ih]
    · rw [List.find?_cons_of_pos _ hp, List.filter_cons_of_pos hp, List.head?_cons]

theorem filter_visited_tail {l : List Nat} (hnd : l.Nodup) :
    ∀ (visited : List Nat) (id : Nat) (rest : List Nat),
    l.filter (fun x => !visited.contains x) = id :: rest →
    l.filter (fun x => !(visited ++ [id]).contains x) = rest := by
  induction l with
  | nil => intro visited id rest h; simp at h
  | cons a t ih =>
    intro visited id rest h
    have hndt : t.Nodup := hnd.of_cons
    have hat : a ∉ t := (List.nodup_cons.mp hnd).1
    by_cases hv : a ∈ visited
    · rw [List.filter_cons_of_neg (by simp [hv])] at h
      rw [List.filter_cons_of_neg (by simp [hv])]
      exact ih hndt visited id rest h
    · rw [List.filter_cons_of_pos (by simp [hv])] at h
      have haid : a = id := (List.cons.inj h).1
      have hrest : t.filter (fun x => !visited.contains x) = rest := (List.cons.inj h).2
      rw [List.filter_cons_of_neg (by simp [haid, List.mem_append])]
      rw [← hrest]
      apply List.filter_congr
      intro x hx
      have hxid : x ≠ id := fun hxe => hat (haid ▸ hxe ▸ hx)
      simp [List.mem_append, hxid]

theorem runBusCb_nonmut {beh : Nat → CbBeh} (hnm : ∀ i, beh i = .pure ∨ beh i = .throws)
    (st : BusState) (id : Nat) :
    runBusCb beh st id = (st, .invoke id (behFlag beh id)) := by
  rcases hnm id with h | h <;> simp [runBusCb, behFlag, h]

/-- With non-mutating callbacks, the live-set iteration of `emit` visits
exactly the not-yet-visited callbacks of the topic, in insertion order,
and leaves the bus unchanged. -/
theorem busForEach_nonmut {beh : Nat → CbBeh} (hnm : ∀ i, beh i = .pure ∨ beh i = .throws)
    (topic : String) (l : List Nat) (hnd : l.Nodup) :
    ∀ (fuel : Nat) (visited : List Nat) (st : BusState),
      alookup st.events topic = some l →
      (l.filter (fun x => !visited.contains x)).length < fuel →
      busForEach beh fuel st topic visited
        = (st, (l.filter (fun x => !visited.contains x)).map
            (fun id => .invoke id (behFlag beh id))) := by
  intro fuel
  induction fuel with
  | zero => intro visited st _ hlt; omega
  | succ n ih =>
    intro visited st hl hlt
    rw [busForEach, hl]
    simp only [Option.getD_some]
    rw [find?_eq_head_filter]
    cases hf : l.filter (fun x => !visited.contains x) with
    | nil => simp
    | cons id rest =>
      simp only [List.head?_cons]
      rw [runBusCb_nonmut hnm]
      have hrest : l.filter (fun x => !(visited ++ [id]).contains x) = rest :=
        filter_visited_tail hnd visited id rest hf
      rw [ih (visited ++ [id]) st hl
        (by rw [hrest]; rw [hf] at hlt; simp only [List.length_cons] at hlt; omega)]
      rw [hrest]
      simp

theorem busInvoked_map (g : Nat → Bool) (l : List Nat) :
    busInvoked (l.map (fun id => .invoke id (g id))) = l := by
  induction l with
  | nil => rfl
  | cons a t ih =>
    simp only [List.map_cons, busInvoked, List.filterMap_cons]
    simpa [busInvoked] using ih

theorem busForEach_fresh {beh : Nat → CbBeh} (hnm : ∀ i, beh i = .pure ∨ beh i = .throws)
    (topic : String) (l : List Nat) (st : BusState) (hl : alookup st.events topic = some l)
    (hnd : l.Nodup) (fuel : Nat) (hf : l.length < fuel) :
    busForEach beh fuel st topic [] = (st, l.map (fun id => .invoke id (behFlag beh id))) := by
  have h0 : l.filter (fun x => !(([] : List Nat).contains x)) = l := by simp
  rw [busForEach_nonmut hnm topic l hnd fuel [] st hl (by rw [h0]; exact hf), h0]

theorem busInvoked_append (a b : List BusEvent) :
    busInvoked (a ++ b) = busInvoked a ++ busInvoked b := by
  simp [busInvoked]

/-- C6: callback-error isolation on both channels.  Store side: the
sequence of invoked subscriber callbacks of a notification does not
depend on which callbacks throw (each throw is caught and the cascade
continues, so the trace equals the never-throwing run's trace in who
gets invoked).  Bus side: for non-mutating callbacks, `emit` returns
normally with the bus unchanged and invokes exactly the topic's
callbacks followed by the wildcard callbacks, regardless of which of
them throw. -/
theorem c6_callback_error_isolation :
    (∀ (throws : Nat → Bool) (st : SMState) (path : String) (newV : Value) (oldV : Option Value),
      smInvokedIds (notifySubs throws st path newV oldV)
        = smInvokedIds (notifySubs noThrow st path newV oldV)) ∧
    (∀ (beh : Nat → CbBeh) (st : BusState) (topic : String) (fuel : Nat),
      (∀ i, beh i = .pure ∨ beh i = .throws) →
      ((alookup st.events topic).getD []).Nodup →
      ((alookup st.events "*").getD []).Nodup →
      ((alookup st.events topic).getD []).length < fuel →
      ((alookup st.events "*").getD []).length < fuel →
      (busEmitOp beh fuel st topic).1 = st ∧
      busInvoked (busEmitOp beh fuel st topic).2
        = ((alookup st.events topic).getD []) ++ ((alookup st.events "*").getD [])) := by
  constructor
  · exact notifySubs_ids
  · intro beh st topic fuel hnm hnd1 hnd2 hf1 hf2
    have hp : busEmitPass1 beh fuel st topic
        = (st, ((alookup st.events topic).getD []).map (fun id => .invoke id (behFlag beh id))) := by
      unfold busEmitPass1
      cases h1 : alookup st.events topic with
      | none => simp
      | some l1 =>
        rw [h1] at hnd1 hf1
        simp only [Option.getD_some] at hnd1 hf1
        simp only [Option.isSome_some, if_true, Option.getD_some]
        exact busForEach_fresh hnm topic l1 st h1 hnd1 fuel hf1
    have hq : busEmitPass1 beh fuel st "*"
        = (st, ((alookup st.events "*").getD []).map (fun id => .invoke id (behFlag beh id))) := by
      unfold busEmitPass1
      cases h2 : alookup st.events "*" with
      | none => simp
      | some l2 =>
        rw [h2] at hnd2 hf2
        simp only [Option.getD_some] at hnd2 hf2
        simp only [Option.isSome_some, if_true, Option.getD_some]
        exact busForEach_fresh hnm "*" l2 st h2 hnd2 fuel hf2
    unfold busEmitOp
    rw [hp]
    dsimp only
    rw [hq]
    dsimp only
    refine ⟨rfl, ?_⟩
    rw [busInvoked_append, busInvoked_map, busInvoked_map]

/-- C6 witness: concrete isolation on both channels — on the store a
throwing callback among `[1, 2]`, ancestor `[3]` and wildcard `[4]`
subscribers; on the bus a throwing callback among the topic callbacks
`[5, 6]` with wildcard `[7]`. -/
theorem c6_isolation_witness :
    smInvokedIds (notifySubs (fun i => i == 1)
      { initialSM with subscribers := [("a.b", [1, 2]), ("a", [3]), ("*", [4])] }
      "a.b" (.vnum 1) none)
    = smInvokedIds (notifySubs noThrow
      { initialSM with subscribers := [("a.b", [1, 2]), ("a", [3]), ("*", [4])] }
      "a.b" (.vnum 1) none) ∧
    (busEmitOp (fun i => if i = 5 then CbBeh.throws else CbBeh.pure) 3 ⟨[("t", [5, 6]), ("*", [7])]⟩ "t").1
      = (⟨[("t", [5, 6]), ("*", [7])]⟩ : BusState) ∧
    busInvoked (busEmitOp (fun i => if i = 5 then CbBeh.throws else CbBeh.pure) 3 ⟨[("t", [5, 6]), ("*", [7])]⟩ "t").2
      = [5, 6, 7] :=
  ⟨c6_callback_error_isolation.1 (fun i => i == 1)
      { initialSM with subscribers := [("a.b", [1, 2]), ("a", [3]), ("*", [4])] }
      "a.b" (.vnum 1) none,
   (c6_callback_error_isolation.2 (fun i => if i = 5 then CbBeh.throws else CbBeh.pure)
      ⟨[("t", [5, 6]), ("*", [7])]⟩ "t" 3
      (fun i => by by_cases h : i = 5 <;> simp [h])
      (by decide) (by decide) (by decide) (by decide)).1,
   (c6_callback_error_isolation.2 (fun i => if i = 5 then CbBeh.throws else CbBeh.pure)
      ⟨[("t", [5, 6]), ("*", [7])]⟩ "t" 3
      (fun i => by by_cases h : i = 5 <;> simp [h])
      (by decide) (by decide) (by decide) (by decide)).2⟩

/-! ## Claim C5 — re-entrant subscribe during emit -/

/-- C5 (counterexample): before the publish only callback 1 is on topic
`"t"`; during `emit("t")` callback 1 subscribes callback 2 to `"t"`, and
callback 2 IS invoked in the same publish pass — `Set.forEach` visits
elements added during iteration — contradicting the claim that it is
not. -/
theorem c5_reentrant_cx :
    alookup c5bus.events "t" = some [1] ∧ c5beh 1 = .subscribes "t" 2 ∧
    busInvoked (busEmitOp c5beh 3 c5bus "t").2 = [1, 2] :=
  ⟨rfl, rfl, rfl⟩

/-- C5 (amended): a callback added during a publish pass to the very
topic being published IS invoked during that same pass: with a single
callback `c` on topic `t` whose body subscribes a fresh callback `k` to
`t`, `emit(t)` invokes `c` and then `k`. -/
theorem c5_reentrant_amended (t : String) (c k : Nat) (beh : Nat → CbBeh)
    (hck : c ≠ k) (ht : t ≠ "*") (hc : beh c = .subscribes t k) (hk : beh k = .pure) :
    busInvoked (busEmitOp beh 3 ⟨[(t, [c])]⟩ t).2 = [c, k] := by
  have hkc : k ≠ c := Ne.symm hck
  simp [busEmitOp, busEmitPass1, busForEach, runBusCb, busOn, alookup, aset,
    hc, hk, hkc, ht, busInvoked]

/-- C5 witness: the amended statement at concrete topic and callbacks. -/
theorem c5_reentrant_witness :
    busInvoked (busEmitOp c5beh 3 ⟨[("t", [1])]⟩ "t").2 = [1, 2] :=
  c5_reentrant_amended "t" 1 2 c5beh (by decide) (by decide) rfl rfl

/-! ## Claim C8 — initAll order and failure isolation -/

theorem mem_insertPriority (x y : Int) : ∀ l, x ∈ insertPriority y l ↔ x = y ∨ x ∈ l := by
  intro l
  induction l with
  | nil => simp [insertPriority]
  | cons a t ih =>
    simp only [insertPriority]
    by_cases h1 : y > a
    · simp [h1, List.mem_cons]
    · by_cases h2 : y = a
      · subst h2
        rw [if_neg h1, if_pos rfl]
        simp only [List.mem_cons]
        tauto
      · rw [if_neg h1, if_neg h2]
        simp only [List.mem_cons, ih]
        tauto

theorem pairwise_insertPriority (x : Int) : ∀ l, l.Pairwise (· > ·) → (insertPriority x l).Pairwise (· > ·) := by
  intro l
  induction l with
  | nil => intro _; simp [insertPriority]
  | cons a t ih =>
    intro hp
    obtain ⟨ha, ht⟩ := List.pairwise_cons.mp hp
    simp only [insertPriority]
    by_cases h1 : x > a
    · rw [if_pos h1]
      refine List.pairwise_cons.mpr ⟨?_, hp⟩
      intro z hz
      rcases List.mem_cons.mp hz with rfl | hz'
      · exact h1
      · exact gt_trans h1 (ha z hz')
    · by_cases h2 : x = a
      · rw [if_neg h1, if_pos h2]
        exact hp
      · have hxa : a > x := by omega
        rw [if_neg h1, if_neg h2]
        refine List.pairwise_cons.mpr ⟨?_, ih ht⟩
        intro z hz
        rcases (mem_insertPriority z x t).mp hz with rfl | hz'
        · exact hxa
        · exact ha z hz'

theorem prioritiesDesc_cons (a : Int) (t : List Int) :
    prioritiesDesc (a :: t) = insertPriority a (prioritiesDesc t) := rfl

theorem pairwise_prioritiesDesc (l : List Int) : (prioritiesDesc l).Pairwise (· > ·) := by
  induction l with
  | nil => simp [prioritiesDesc]
  | cons a t ih =>
    rw [prioritiesDesc_cons]
    exact pairwise_insertPriority a _ ih

theorem mem_prioritiesDesc (x : Int) (l : List Int) : x ∈ prioritiesDesc l ↔ x ∈ l := by
  induction l with
  | nil => simp [prioritiesDesc]
  | cons a t ih =>
    rw [prioritiesDesc_cons, mem_insertPriority]
    simp [ih, List.mem_cons]

theorem nodup_prioritiesDesc (l : List Int) : (prioritiesDesc l).Nodup :=
  (pairwise_prioritiesDesc l).imp (fun h => ne_of_gt h)

theorem count_filter_ne {α : Type} [BEq α] [LawfulBEq α] (p : α → Bool) (l : List α) (a : α)
    (h : p a = false) : (l.filter p).count a = 0 := by
  rw [List.count_eq_zero]
  intro hmem
  rw [List.mem_filter] at hmem
  rw [hmem.2] at h
  exact Bool.noConfusion h

theorem count_sortEntries [BEq (String × ModConfig)] [LawfulBEq (String × ModConfig)]
    (rs : RegState) (e : String × ModConfig) :
    (sortEntries rs).count e = (enabledConfigs rs).count e := by
  have key : ∀ ps : List Int, ps.Nodup →
      (ps.flatMap (fun p => (enabledConfigs rs).filter (fun x => x.2.priority = p))).count e
        = if e.2.priority ∈ ps then (enabledConfigs rs).count e else 0 := by
    intro ps
    induction ps with
    | nil => intro _; simp
    | cons p rest ih =>
      intro hnd
      rw [List.flatMap_cons, List.count_append, ih hnd.of_cons]
      by_cases hp : e.2.priority = p
      · rw [List.count_filter (by simp [hp])]
        have hnotin : p ∉ rest := (List.nodup_cons.mp hnd).1
        simp [hp, hnotin]
      · rw [count_filter_ne _ _ _ (by simp [hp])]
        simp [hp, List.mem_cons]
  by_cases he : e.2.priority ∈ prioritiesDesc ((enabledConfigs rs).map (fun x => x.2.priority))
  · unfold sortEntries
    rw [key _ (nodup_prioritiesDesc _), if_pos he]
  · unfold sortEntries
    rw [key _ (nodup_prioritiesDesc _), if_neg he]
    have hnm : e ∉ enabledConfigs rs := fun hin =>
      he ((mem_prioritiesDesc _ _).mpr (List.mem_map.mpr ⟨e, hin, rfl⟩))
    rw [List.count_eq_zero.mpr hnm]

theorem perm_sortEntries (rs : RegState) : (sortEntries rs).Perm (enabledConfigs rs) := by
  rw [List.perm_iff_count]
  intro e
  exact @count_sortEntries instBEqOfDecidableEq (@instLawfulBEq _ _) rs e

theorem mem_group_priority (rs : RegState) (p : Int) (x : String × ModConfig)
    (hx : x ∈ (enabledConfigs rs).filter (fun e => e.2.priority = p)) : x.2.priority = p :=
  of_decide_eq_true (List.mem_filter.mp hx).2

theorem pairwise_const_priority (p : Int) :
    ∀ (l : List (String × ModConfig)), (∀ x ∈ l, x.2.priority = p) →
    l.Pairwise (fun a b => b.2.priority ≤ a.2.priority) := by
  intro l
  induction l with
  | nil => intro _; simp
  | cons a t ih =>
    intro hall
    refine List.pairwise_cons.mpr ⟨?_, ih (fun x hx => hall x (List.mem_cons_of_mem _ hx))⟩
    intro b hb
    rw [hall b (List.mem_cons_of_mem _ hb), hall a (List.mem_cons_self _ _)]

theorem pairwise_ge_sortEntries (rs : RegState) :
    (sortEntries rs).Pairwise (fun a b => b.2.priority ≤ a.2.priority) := by
  have key : ∀ ps : List Int, ps.Pairwise (· > ·) →
      (ps.flatMap (fun p => (enabledConfigs rs).filter (fun e => e.2.priority = p))).Pairwise
        (fun a b => b.2.priority ≤ a.2.priority) := by
    intro ps
    induction ps with
    | nil => intro _; simp
    | cons p rest ih =>
      intro hp
      obtain ⟨hhead, htail⟩ := List.pairwise_cons.mp hp
      rw [List.flatMap_cons, List.pairwise_append]
      refine ⟨pairwise_const_priority p _ (fun x hx => mem_group_priority rs p x hx), ih htail, ?_⟩
      intro a ha b hb
      have hpa : a.2.priority = p := mem_group_priority rs p a ha
      obtain ⟨q, hq, hbq⟩ := List.mem_flatMap.mp hb
      have hpb : b.2.priority = q := mem_group_priority rs q b hbq
      have hpq : p > q := hhead q hq
      rw [hpa, hpb]
      exact le_of_lt hpq
  exact key _ (pairwise_prioritiesDesc _)

theorem ties_sortEntries (rs : RegState) (p : Int) :
    (sortEntries rs).filter (fun e => e.2.priority = p)
      = (enabledConfigs rs).filter (fun e => e.2.priority = p) := by
  have key : ∀ ps : List Int, ps.Nodup →
      (ps.flatMap (fun q => (enabledConfigs rs).filter (fun e => e.2.priority = q))).filter
          (fun e => e.2.priority = p)
        = if p ∈ ps then (enabledConfigs rs).filter (fun e => e.2.priority = p) else [] := by
    intro ps
    induction ps with
    | nil => intro _; simp
    | cons q rest ih =>
      intro hnd
      rw [List.flatMap_cons, List.filter_append, ih hnd.of_cons]
      by_cases hq : q = p
      · subst hq
        have hnot : q ∉ rest := (List.nodup_cons.mp hnd).1
        rw [if_neg hnot, if_pos (List.mem_cons_self _ _), List.append_nil]
        rw [List.filter_filter]
        apply List.filter_congr
        intro x _
        exact Bool.and_self _
      · have hgrp : ((enabledConfigs rs).filter (fun e => e.2.priority = q)).filter
            (fun e => e.2.priority = p) = [] := by
          rw [List.filter_eq_nil_iff]
          intro a ha
          have := mem_group_priority rs q a ha
          simp [this, hq]
        rw [hgrp, List.nil_append]
        by_cases hrest : p ∈ rest
        · rw [if_pos hrest, if_pos (List.mem_cons_of_mem _ hrest)]
        · rw [if_neg hrest, if_neg (by
            intro hcon
            rcases List.mem_cons.mp hcon with rfl | h
            · exact hq rfl
            · exact hrest h)]
  unfold sortEntries
  rw [key _ (nodup_prioritiesDesc _)]
  by_cases hp : p ∈ prioritiesDesc ((enabledConfigs rs).map (fun e => e.2.priority))
  · rw [if_pos hp]
  · rw [if_neg hp]
    symm
    rw [List.filter_eq_nil_iff]
    intro a ha hpa
    have hap : a.2.priority = p := of_decide_eq_true hpa
    exact hp ((mem_prioritiesDesc _ _).mpr (List.mem_map.mpr ⟨a, ha, hap⟩))

theorem runDeps_all_initialized (step : String → RegState → IRes) :
    ∀ (deps : List String) (rs : RegState) (tr : List REvent),
    (∀ d ∈ deps, rs.initialized.contains d = true) →
    runDeps step deps rs tr = .ok rs tr := by
  intro deps
  induction deps with
  | nil => intro rs tr _; rfl
  | cons d rest ih =>
    intro rs tr hall
    rw [runDeps, if_pos (hall d (List.mem_cons_self _ _))]
    exact ih rs tr (fun x hx => hall x (List.mem_cons_of_mem _ hx))

/-- Closed form of one `init` step whose dependencies are all already
initialized: the instance is created and stored, then the init hook
either throws (error propagates, initialized set unchanged) or the
module is marked initialized. -/
theorem initM_step (fuel : Nat) (rs : RegState) (id : String) (d : ModDef) (c : ModConfig)
    (hm : alookup rs.modules id = some d)
    (hc : alookup rs.configs id = some c)
    (hen : c.enabled = true)
    (hni : rs.initialized.contains id = false)
    (hdeps : ∀ dep ∈ c.dependencies, rs.initialized.contains dep = true) :
    initM (fuel + 1) id rs =
      if d.hasInit && d.initThrows then
        .err ("init hook of \x22" ++ id ++ "\x22 threw")
          { rs with instances := aset rs.instances id d } [.moduleError id]
      else
        .ok { rs with instances := aset rs.instances id d,
                      initialized := rs.initialized ++ [id] } [.moduleLoaded id] := by
  have hni' : ¬ rs.initialized.contains id = true := by rw [hni]; simp
  rw [initM, if_neg hni']
  simp only [hm, hc]
  rw [if_neg (show ¬ (!c.enabled) = true by rw [hen]; simp)]
  simp only [runDeps_all_initialized (initM fuel) c.dependencies rs [] hdeps, List.nil_append]

theorem alookup_map_snd {α β : Type} (f : String → α → β) :
    ∀ (l : List (String × α)) (key : String),
    alookup (l.map (fun e => (e.1, f e.1 e.2))) key = (alookup l key).map (f key) := by
  intro l
  induction l with
  | nil => intro key; rfl
  | cons h t ih =>
    intro key
    obtain ⟨k, v⟩ := h
    by_cases hk : k = key
    · subst hk
      simp [alookup]
    · simp [alookup, hk, ih]

/-! ## Claim C10 — a throwing init hook leaves its instance behind -/

/-- C10: when a registered, enabled module's `init` hook throws while
every dependency is already initialized, `init(id)` propagates the
exception, yet the instance created before the hook ran stays in the
instance table: `get(id)` returns it while the module is absent from the
initialized set and `list()` reports it as not initialized. -/
theorem c10_instance_survives_throw (fuel : Nat) (rs : RegState) (id : String)
    (d : ModDef) (c : ModConfig)
    (hm : alookup rs.modules id = some d)
    (hc : alookup rs.configs id = some c)
    (hen : c.enabled = true)
    (hhi : d.hasInit = true) (hth : d.initThrows = true)
    (hni : rs.initialized.contains id = false)
    (hdeps : ∀ dep ∈ c.dependencies, rs.initialized.contains dep = true) :
    initM (fuel + 1) id rs
      = .err ("init hook of \x22" ++ id ++ "\x22 threw")
          { rs with instances := aset rs.instances id d } [.moduleError id] ∧
    regGet { rs with instances := aset rs.instances id d } id = some d ∧
    ({ rs with instances := aset rs.instances id d } : RegState).initialized.contains id = false ∧
    alookup (regList { rs with instances := aset rs.instances id d }) id = some (c, false) := by
  refine ⟨?_, ?_, ?_, ?_⟩
  · rw [initM_step fuel rs id d c hm hc hen hni hdeps,
        if_pos (by rw [hhi, hth]; rfl)]
  · exact alookup_aset_self rs.instances id d
  · exact hni
  · unfold regList
    rw [alookup_map_snd (fun k v =>
          (v, ({ rs with instances := aset rs.instances id d } : RegState).initialized.contains k))]
    rw [hc, hni]
    rfl

/-- C10 witness: a concrete one-module registry whose init hook
throws. -/
theorem c10_witness :
    initM 1 "X" ⟨[("X", ⟨true, true⟩)], [("X", ⟨"X", "X", none, [], true, 0⟩)], [], [], false⟩
      = .err ("init hook of \x22X\x22 threw")
          { (⟨[("X", ⟨true, true⟩)], [("X", ⟨"X", "X", none, [], true, 0⟩)], [], [], false⟩ : RegState) with
            instances := aset [] "X" ⟨true, true⟩ } [.moduleError "X"] ∧
    regGet { (⟨[("X", ⟨true, true⟩)], [("X", ⟨"X", "X", none, [], true, 0⟩)], [], [], false⟩ : RegState) with
            instances := aset [] "X" ⟨true, true⟩ } "X" = some ⟨true, true⟩ ∧
    ({ (⟨[("X", ⟨true, true⟩)], [("X", ⟨"X", "X", none, [], true, 0⟩)], [], [], false⟩ : RegState) with
            instances := aset [] "X" ⟨true, true⟩ } : RegState).initialized.contains "X" = false ∧
    alookup (regList { (⟨[("X", ⟨true, true⟩)], [("X", ⟨"X", "X", none, [], true, 0⟩)], [], [], false⟩ : RegState) with
            instances := aset [] "X" ⟨true, true⟩ }) "X" = some (⟨"X", "X", none, [], true, 0⟩, false) :=
  c10_instance_survives_throw 0
    ⟨[("X", ⟨true, true⟩)], [("X", ⟨"X", "X", none, [], true, 0⟩)], [], [], false⟩
    "X" ⟨true, true⟩ ⟨"X", "X", none, [], true, 0⟩
    rfl rfl rfl rfl rfl rfl (fun dep hdep => absurd hdep (by simp))

/-! ## Claim C7 — dependency cycles recurse forever -/

/-- C7 (evaluation at the failing input): on an A↔B dependency cycle,
`init('A')` (and `init('B')`) exhausts every recursion budget — the code
has no cycle detection, marks a module initialized only after its
dependencies, and so recurses forever instead of terminating with a
configuration error naming the cycle. -/
theorem c7_cycle_diverges :
    ∀ fuel, initM fuel "A" cycleReg = .timeout ∧ initM fuel "B" cycleReg = .timeout := by
  intro fuel
  induction fuel with
  | zero => exact ⟨rfl, rfl⟩
  | succ n ih =>
    constructor
    · rw [initM, if_neg (by simp [cycleReg])]
      simp only [show alookup cycleReg.modules "A" = some cycModDef from rfl,
                 show alookup cycleReg.configs "A" = some cycCfgA from rfl,
                 show cycCfgA.dependencies = ["B"] from rfl,
                 show (!cycCfgA.enabled) = false from rfl,
                 Bool.false_eq_true, if_false, runDeps,
                 show cycleReg.initialized.contains "B" = false from rfl,
                 ih.2]
    · rw [initM, if_neg (by simp [cycleReg])]
      simp only [show alookup cycleReg.modules "B" = some cycModDef from rfl,
                 show alookup cycleReg.configs "B" = some cycCfgB from rfl,
                 show cycCfgB.dependencies = ["A"] from rfl,
                 show (!cycCfgB.enabled) = false from rfl,
                 Bool.false_eq_true, if_false, runDeps,
                 show cycleReg.initialized.contains "A" = false from rfl,
                 ih.1]

theorem callsOf_append (a b : List REvent) : callsOf (a ++ b) = callsOf a ++ callsOf b := by
  simp [callsOf]

theorem contains_eq_true_iff_mem {α : Type} [BEq α] [LawfulBEq α] (l : List α) (a : α) :
    l.contains a = true ↔ a ∈ l := by
  induction l with
  | nil => simp
  | cons x t ih => simp [List.contains_cons, ih]

theorem alookup_some_mem {α : Type} :
    ∀ (l : List (String × α)) (k : String) (v : α), alookup l k = some v → (k, v) ∈ l := by
  intro l
  induction l with
  | nil => intro k v h; exact Option.noConfusion h
  | cons e t ih =>
    intro k v h
    obtain ⟨k', w⟩ := e
    by_cases hk : k' = k
    · subst hk
      rw [alookup, if_pos rfl] at h
      rw [Option.some.injEq] at h
      subst h
      exact List.mem_cons_self _ _
    · rw [alookup, if_neg hk] at h
      exact List.mem_cons_of_mem _ (ih k v h)

theorem alookup_of_mem_nodup {α : Type} :
    ∀ (l : List (String × α)), (l.map (fun e => e.1)).Nodup →
    ∀ (k : String) (v : α), (k, v) ∈ l → alookup l k = some v := by
  intro l
  induction l with
  | nil => intro _ k v h; simp at h
  | cons e t ih =>
    intro hnd k v h
    obtain ⟨k', w⟩ := e
    rcases List.mem_cons.mp h with heq | hmem
    · rw [Prod.mk.injEq] at heq
      rw [alookup, if_pos heq.1.symm, heq.2]
    · by_cases hk : k' = k
      · exfalso
        subst hk
        have : k' ∈ t.map (fun e => e.1) := List.mem_map.mpr ⟨(k', v), hmem, rfl⟩
        simp only [List.map_cons, List.nodup_cons] at hnd
        exact hnd.1 this
      · rw [alookup, if_neg hk]
        exact ih (by simp only [List.map_cons, List.nodup_cons] at hnd; exact hnd.2) k v hmem

/-- Walking a list of dependency-free enabled registered modules with
the `initAll` loop: the loop terminates, preserves the module table,
only grows the initialized set, never initializes a module whose init
hook throws, initializes every walked module whose hook succeeds, and
issues one `init` call per id in order. -/
theorem initAllLoop_iso (f : Nat) (X Y : String) (dX dY : ModDef)
    (hXd : (dX.hasInit && dX.initThrows) = true)
    (hYd : (dY.hasInit && dY.initThrows) = false) :
    ∀ (ids : List String) (rs : RegState) (tr : List REvent),
    (∀ id ∈ ids, ∃ d c, alookup rs.modules id = some d ∧ alookup rs.configs id = some c ∧
        c.dependencies = [] ∧ c.enabled = true) →
    alookup rs.modules X = some dX →
    alookup rs.modules Y = some dY →
    X ∉ rs.initialized →
    ∃ rs' tr', initAllLoop (f + 1) ids rs tr = some (rs', tr') ∧
      rs'.modules = rs.modules ∧
      (∀ z, z ∈ rs.initialized → z ∈ rs'.initialized) ∧
      X ∉ rs'.initialized ∧
      ((Y ∈ ids ∨ Y ∈ rs.initialized) → Y ∈ rs'.initialized) ∧
      callsOf tr' = callsOf tr ++ ids := by
  intro ids
  induction ids with
  | nil =>
    intro rs tr _ _ _ hX
    refine ⟨rs, tr, rfl, rfl, fun z hz => hz, hX, ?_, by simp⟩
    intro hy
    rcases hy with hy | hy
    · simp at hy
    · exact hy
  | cons id rest ih =>
    intro rs tr hH hmX hmY hX
    obtain ⟨d, c, hm, hc, hdeps0, hen⟩ := hH id (List.mem_cons_self _ _)
    by_cases hin : id ∈ rs.initialized
    · rw [initAllLoop, initM, if_pos ((contains_eq_true_iff_mem _ _).mpr hin)]
      obtain ⟨rs', tr', hloop, hmod, hmono, hXout, hYin, hcalls⟩ :=
        ih rs (tr ++ .initCall id :: [])
          (fun i hi => hH i (List.mem_cons_of_mem _ hi)) hmX hmY hX
      refine ⟨rs', tr', hloop, hmod, hmono, hXout, ?_, ?_⟩
      · intro hy
        rcases hy with hy | hy
        · rcases List.mem_cons.mp hy with rfl | hy'
          · exact hYin (Or.inr hin)
          · exact hYin (Or.inl hy')
        · exact hYin (Or.inr hy)
      · rw [hcalls, callsOf_append]
        simp [callsOf]
    · have hni : rs.initialized.contains id = false := by
        cases hcon : rs.initialized.contains id
        · rfl
        · exact absurd ((contains_eq_true_iff_mem _ _).mp hcon) hin
      have hstep := initM_step f rs id d c hm hc hen hni
        (by rw [hdeps0]; intro dep hdep; simp at hdep)
      by_cases hthrow : (d.hasInit && d.initThrows) = true
      · rw [initAllLoop, hstep, if_pos hthrow]
        obtain ⟨rs', tr', hloop, hmod, hmono, hXout, hYin, hcalls⟩ :=
          ih { rs with instances := aset rs.instances id d }
            (tr ++ .initCall id :: [.moduleError id])
            (fun i hi => hH i (List.mem_cons_of_mem _ hi)) hmX hmY hX
        refine ⟨rs', tr', hloop, hmod, hmono, hXout, ?_, ?_⟩
        · intro hy
          rcases hy with hy | hy
          · rcases List.mem_cons.mp hy with rfl | hy'
            · exfalso
              have hdd : d = dY := Option.some.inj (hm.symm.trans hmY)
              rw [hdd, hYd] at hthrow
              exact absurd hthrow (by decide)
            · exact hYin (Or.inl hy')
          · exact hYin (Or.inr hy)
        · rw [hcalls, callsOf_append]
          simp [callsOf]
      · rw [initAllLoop, hstep, if_neg hthrow]
        have hXid : X ≠ id := by
          intro he
          subst he
          have hdd : d = dX := Option.some.inj (hm.symm.trans hmX)
          rw [hdd] at hthrow
          exact hthrow hXd
        obtain ⟨rs', tr', hloop, hmod, hmono, hXout, hYin, hcalls⟩ :=
          ih { rs with instances := aset rs.instances id d,
                       initialized := rs.initialized ++ [id] }
            (tr ++ .initCall id :: [.moduleLoaded id])
            (fun i hi => hH i (List.mem_cons_of_mem _ hi)) hmX hmY
            (by
              intro hmem
              rcases List.mem_append.mp hmem with h | h
              · exact hX h
              · simp at h; exact hXid h)
        refine ⟨rs', tr', hloop, hmod, ?_, hXout, ?_, ?_⟩
        · intro z hz
          exact hmono z (List.mem_append.mpr (Or.inl hz))
        · intro hy
          rcases hy with hy | hy
          · rcases List.mem_cons.mp hy with rfl | hy'
            · exact hYin (Or.inr (List.mem_append.mpr (Or.inr (by simp))))
            · exact hYin (Or.inl hy')
          · exact hYin (Or.inr (List.mem_append.mpr (Or.inl hy)))
        · rw [hcalls, callsOf_append]
          simp [callsOf]

/-- C8: (order) `initAll`'s walk is exactly the enabled registrations,
by descending declared priority with ties in registration order — the
sorted entry list is a permutation of the enabled registrations, its
priorities are non-increasing, and within each priority level it equals
the registration-ordered sublist; (isolation) on a registry of
dependency-free modules where X's init hook throws and Y's succeeds,
`initAll` terminates with no escaping exception, Y initialized, X not
initialized, and one `init` call per sorted id in order. -/
theorem c8_initAll_order_and_isolation :
    (∀ rs : RegState,
      (sortEntries rs).Perm (enabledConfigs rs) ∧
      (sortEntries rs).Pairwise (fun a b => b.2.priority ≤ a.2.priority) ∧
      (∀ p : Int, (sortEntries rs).filter (fun e => e.2.priority = p)
        = (enabledConfigs rs).filter (fun e => e.2.priority = p))) ∧
    (∀ (f : Nat) (rs : RegState) (X Y : String) (dX dY : ModDef) (cX cY : ModConfig),
      rs.isInitializing = false →
      (rs.configs.map (fun e => e.1)).Nodup →
      (∀ e ∈ rs.configs, e.2.dependencies = []) →
      (∀ e ∈ rs.configs, ∃ dd, alookup rs.modules e.1 = some dd) →
      alookup rs.modules X = some dX →
      alookup rs.configs X = some cX → cX.enabled = true →
      (dX.hasInit && dX.initThrows) = true →
      alookup rs.modules Y = some dY →
      alookup rs.configs Y = some cY → cY.enabled = true →
      (dY.hasInit && dY.initThrows) = false →
      X ∉ rs.initialized →
      (initAll (f + 1) rs).isSome = true ∧
      Y ∈ (initAllResult (f + 1) rs).1.initialized ∧
      X ∉ (initAllResult (f + 1) rs).1.initialized ∧
      callsOf (initAllResult (f + 1) rs).2 = sortIds rs) := by
  constructor
  · intro rs
    exact ⟨perm_sortEntries rs, pairwise_ge_sortEntries rs, fun p => ties_sortEntries rs p⟩
  · intro f rs X Y dX dY cX cY hinit hnd hdeps hmods hmX hcX henX hdX hmY hcY henY hdY hXin
    have hmemS : ∀ i ∈ sortIds rs, ∃ cc, (i, cc) ∈ rs.configs ∧ cc.enabled = true := by
      intro i hi
      obtain ⟨e, he, hfst⟩ := List.mem_map.mp hi
      obtain ⟨p, _, hef⟩ := List.mem_flatMap.mp he
      have hen' : e ∈ enabledConfigs rs := (List.mem_filter.mp hef).1
      have henb : e.2.enabled = true := (List.mem_filter.mp hen').2
      have hcfg : e ∈ rs.configs := List.mem_of_mem_filter hen'
      subst hfst
      exact ⟨e.2, by rw [Prod.mk.eta]; exact hcfg, henb⟩
    have hH : ∀ i ∈ sortIds rs, ∃ d cc, alookup rs.modules i = some d ∧
        alookup rs.configs i = some cc ∧ cc.dependencies = [] ∧ cc.enabled = true := by
      intro i hi
      obtain ⟨cc, hmem, henb⟩ := hmemS i hi
      have hlc : alookup rs.configs i = some cc := alookup_of_mem_nodup rs.configs hnd i cc hmem
      obtain ⟨dd, hdd⟩ := hmods (i, cc) hmem
      exact ⟨dd, cc, hdd, hlc, hdeps (i, cc) hmem, henb⟩
    have hYsort : Y ∈ sortIds rs := by
      have hYc : (Y, cY) ∈ rs.configs := alookup_some_mem rs.configs Y cY hcY
      have hYen : (Y, cY) ∈ enabledConfigs rs := List.mem_filter.mpr ⟨hYc, henY⟩
      have hYse : (Y, cY) ∈ sortEntries rs := (perm_sortEntries rs).mem_iff.mpr hYen
      exact List.mem_map.mpr ⟨(Y, cY), hYse, rfl⟩
    obtain ⟨rs', tr', hloop, hmod, hmono, hXout, hYin, hcalls⟩ :=
      initAllLoop_iso f X Y dX dY hdX hdY (sortIds rs)
        { rs with isInitializing := true } [] hH hmX hmY hXin
    have hAll : initAll (f + 1) rs = some ({ rs' with isInitializing := false }, tr') := by
      unfold initAll
      rw [if_neg (by rw [hinit]; simp)]
      rw [show sortIds { rs with isInitializing := true } = sortIds rs from rfl]
      rw [hloop]
    have hres : initAllResult (f + 1) rs = ({ rs' with isInitializing := false }, tr') := by
      unfold initAllResult
      rw [hAll]
      rfl
    refine ⟨by rw [hAll]; rfl, ?_, ?_, ?_⟩
    · rw [hres]
      exact hYin (Or.inl hYsort)
    · rw [hres]
      exact hXout
    · rw [hres]
      rw [hcalls]
      simp [callsOf]

/-- C8 witness: order characterization at the witness registry and
concrete failure isolation — X's hook throws, Y still initializes, no
exception escapes `initAll`. -/
theorem c8_witness :
    (sortEntries c8reg).Perm (enabledConfigs c8reg) ∧
    ((initAll 1 c8reg).isSome = true ∧
      "Y" ∈ (initAllResult 1 c8reg).1.initialized ∧
      "X" ∉ (initAllResult 1 c8reg).1.initialized ∧
      callsOf (initAllResult 1 c8reg).2 = sortIds c8reg) :=
  ⟨(c8_initAll_order_and_isolation.1 c8reg).1,
   c8_initAll_order_and_isolation.2 0 c8reg "X" "Y" ⟨true, true⟩ ⟨true, false⟩
     ⟨"X", "X", none, [], true, 0⟩ ⟨"Y", "Y", none, [], true, 0⟩
     rfl (by decide)
     (by
       intro e he
       rcases List.mem_cons.mp he with rfl | he'
       · rfl
       · rcases List.mem_cons.mp he' with rfl | he''
         · rfl
         · simp at he'')
     (by
       intro e he
       rcases List.mem_cons.mp he with rfl | he'
       · exact ⟨⟨true, true⟩, rfl⟩
       · rcases List.mem_cons.mp he' with rfl | he''
         · exact ⟨⟨true, false⟩, rfl⟩
         · simp at he'')
     rfl rfl rfl rfl rfl rfl rfl rfl (by simp [c8reg])⟩
